import Mathlib

/-!
Verification of the finances repository core: CSV row ingestion
(src/lib/csv.ts), the keyword rule engine (src/lib/rules.ts), the
aggregation functions (src/lib/aggregate.ts) and the merchant keyword
extractor (src/App.tsx), shallowly embedded over character lists and
rational numbers. JavaScript numbers are modelled as exact rationals;
rational arithmetic is written through mkRat so that every definition
evaluates inside the kernel.
-/

namespace Finances

/-- Characters of a JavaScript string. -/
abbrev Str := List Char

/-- View a Lean string literal as a character list. -/
def str (s : String) : Str := s.data

/-- Model of String.prototype.trim: drop leading and trailing whitespace. -/
def trimWs (s : Str) : Str :=
  ((s.dropWhile Char.isWhitespace).reverse.dropWhile Char.isWhitespace).reverse

/-- Model of String.prototype.toLowerCase on ASCII data. -/
def lower (s : Str) : Str := s.map Char.toLower

/-- Model of String.prototype.split with a one-character separator:
the separator is removed and the pieces between occurrences are returned;
the empty string splits to a single empty piece, as in JavaScript. -/
def jsSplit (sep : Char) : Str → List Str
  | [] => [[]]
  | c :: cs =>
    if c = sep then [] :: jsSplit sep cs
    else
      match jsSplit sep cs with
      | l :: ls => (c :: l) :: ls
      | [] => [[c]]

/-- Run-collapsing traversal: a maximal run of characters satisfying p
becomes the single character rep, as a global regex replace of a
one-class-plus pattern does; the flag records whether the previous
character was inside a run. -/
def collapseGo (rep : Char) (p : Char → Bool) : Bool → Str → Str
  | _, [] => []
  | inRun, c :: cs =>
    if p c then
      (if inRun then collapseGo rep p true cs else rep :: collapseGo rep p true cs)
    else c :: collapseGo rep p false cs

/-- Replace every maximal run of characters satisfying p by the single
character rep. -/
def collapseWith (rep : Char) (p : Char → Bool) (s : Str) : Str :=
  collapseGo rep p false s

/-- Numeric value of a digit string, most significant digit first. -/
def natVal (s : Str) : Nat :=
  s.foldl (fun acc c => acc * 10 + (c.toNat - '0'.toNat)) 0

/-- Exact value of a decimal numeral with integer part ip and fractional
part frac, both digit strings. -/
def decValue (ip frac : Str) : ℚ :=
  mkRat (natVal ip * 10 ^ frac.length + natVal frac) (10 ^ frac.length)

/-- Unsigned decimal numeral: digits, optionally a dot and more digits,
at least one digit overall; none models NaN. -/
def parseDec (s : Str) : Option ℚ :=
  let ip := s.takeWhile Char.isDigit
  let rest := s.dropWhile Char.isDigit
  match rest with
  | [] => if ip = [] then none else some (decValue ip [])
  | '.' :: frac =>
    if frac.all Char.isDigit ∧ (ip ≠ [] ∨ frac ≠ []) then some (decValue ip frac)
    else none
  | _ => none

/-- Model of the JavaScript Number() conversion on the decimal fragment
of its string grammar: surrounding whitespace is trimmed, the empty string
converts to 0, an optional sign precedes an unsigned decimal numeral, and
every other string converts to NaN (modelled as none). -/
def jsNumber (s : Str) : Option ℚ :=
  match trimWs s with
  | [] => some 0
  | '-' :: rest => (parseDec rest).map (fun q => -q)
  | '+' :: rest => parseDec rest
  | t => parseDec t

/-- JavaScript truthiness of a number: NaN and 0 are falsy. -/
def truthy : Option ℚ → Bool
  | none => false
  | some q => q != 0

/-- Kernel-evaluable rational subtraction, used for the month - 1
argument computation. -/
def qsub (a b : ℚ) : ℚ := mkRat (a.num * b.den - b.num * a.den) (a.den * b.den)

/-- Kernel-evaluable rational addition, used by the aggregation loops. -/
def qadd (a b : ℚ) : ℚ := mkRat (a.num * b.den + b.num * a.den) (a.den * b.den)

/-- Model of Math.abs. -/
def jsAbs (q : ℚ) : ℚ := if q < 0 then -q else q

/-- ToIntegerOrInfinity for a non-NaN number: truncation toward zero. -/
def ratTrunc (q : ℚ) : Int := q.num.tdiv q.den

/-- Gregorian leap-year rule, as in ECMAScript date arithmetic. -/
def isLeap (y : Int) : Bool := (y % 4 == 0 && y % 100 != 0) || y % 400 == 0

/-- Days in the month with zero-based index m of year y. -/
def daysInMonth (y : Int) (m : Nat) : Int :=
  match m with
  | 0 => 31
  | 1 => if isLeap y then 29 else 28
  | 2 => 31
  | 3 => 30
  | 4 => 31
  | 5 => 30
  | 6 => 31
  | 7 => 31
  | 8 => 30
  | 9 => 31
  | 10 => 30
  | _ => 31

/-- Days in year y. -/
def daysInYear (y : Int) : Int := if isLeap y then 366 else 365

/-- Days from the start of year y to the start of its zero-based month m. -/
def monthOffset (y : Int) : Nat → Int
  | 0 => 0
  | m + 1 => monthOffset y m + daysInMonth y m

/-- Days from 1970-01-01 to the start of year 1970 + n. -/
def yearsDaysFwd : Nat → Int
  | 0 => 0
  | n + 1 => yearsDaysFwd n + daysInYear (1970 + n)

/-- Days from the start of year 1970 - n to 1970-01-01. -/
def yearsDaysBwd : Nat → Int
  | 0 => 0
  | n + 1 => yearsDaysBwd n + daysInYear (1970 - ((n : Int) + 1))

/-- Days from 1970-01-01 to the start of year y. -/
def yearsDays (y : Int) : Int :=
  if 1970 ≤ y then yearsDaysFwd (y - 1970).toNat
  else -(yearsDaysBwd (1970 - y).toNat)

/-- A JavaScript Date holding a local calendar date: year, zero-based
month in 0..11 and day of month starting at 1 (as the fields produced by
getFullYear, getMonth and getDate). -/
structure JsDate where
  year : Int
  month : Nat
  day : Int
deriving DecidableEq

/-- ECMAScript Day number of a date: days since 1970-01-01. -/
def epochDays (dt : JsDate) : Int :=
  yearsDays dt.year + monthOffset dt.year dt.month + (dt.day - 1)

theorem daysInMonth_bounds (y : Int) (m : Nat) :
    28 ≤ daysInMonth y m ∧ daysInMonth y m ≤ 31 := by
  unfold daysInMonth
  split <;> (try split) <;> omega

/-- One month of day-of-month normalization at a time, with explicit
fuel; the measure (32 - d for d below 1, d otherwise) shrinks by at
least 27 every step, so the fuel supplied by normDay is never
exhausted and the fuel-zero branch is unreachable. -/
def normDayGo (y : Int) (m : Nat) (d : Int) : Nat → Int × Nat × Int
  | 0 => (y, m, d)
  | fuel + 1 =>
    if d < 1 then
      match m with
      | 0 => normDayGo (y - 1) 11 (d + daysInMonth (y - 1) 11) fuel
      | mp + 1 => normDayGo y mp (d + daysInMonth y mp) fuel
    else if daysInMonth y m < d then
      if m = 11 then normDayGo (y + 1) 0 (d - daysInMonth y m) fuel
      else normDayGo y (m + 1) (d - daysInMonth y m) fuel
    else (y, m, d)

/-- Roll an out-of-range day of month over into the neighbouring months,
as the ECMAScript MakeDay computation does; the month index stays in
0..11 and the year absorbs the overflow. -/
def normDay (y : Int) (m : Nat) (d : Int) : Int × Nat × Int :=
  normDayGo y m d (d.natAbs + 64)

/-- The civil date produced by the Date(year, month, day) constructor,
before the representable-range test: a year argument from 0 to 99 is
read as 1900 + year, the month overflow moves into the year and the day
overflow moves across months. -/
def jsCivil (yq mq dq : ℚ) : JsDate :=
  let yi := ratTrunc yq
  let mi := ratTrunc mq
  let di := ratTrunc dq
  let yr := if 0 ≤ yi ∧ yi ≤ 99 then 1900 + yi else yi
  let ym := yr + mi.fdiv 12
  let mn := (mi.emod 12).toNat
  let r := normDay ym mn di
  ⟨r.1, r.2.1, r.2.2⟩

/-- Model of new Date(year, month, day) followed by the
Number.isNaN(date.getTime()) test of the source: the result is none
exactly when the time value falls outside the representable range of
± 100,000,000 days from the epoch. -/
def jsMakeDate (yq mq dq : ℚ) : Option JsDate :=
  let dt := jsCivil yq mq dq
  if (epochDays dt).natAbs ≤ 100000000 then some dt else none

/-- Translation of parseDate from src/lib/csv.ts: trim, split on slashes
into exactly three parts, convert each with Number, reject a zero or NaN
part, then build the date from (year, month - 1, day). -/
def parseDate (value : Str) : Option JsDate :=
  let trimmed := trimWs value
  if trimmed = [] then none
  else
    match jsSplit '/' trimmed with
    | [ms, ds, ys] =>
      let month := jsNumber ms
      let day := jsNumber ds
      let year := jsNumber ys
      if truthy month && truthy day && truthy year then
        jsMakeDate (year.getD 0) (qsub (month.getD 0) 1) (day.getD 0)
      else none
    | _ => none

/-- Cleaning step of parseAmount from src/lib/csv.ts: trim, delete every
parenthesis, comma and dollar sign, then delete every whitespace
character (the source repeats the comma removal, by then a no-op). -/
def amountCleaned (value : Str) : Str :=
  ((((trimWs value).filter
      (fun c => !(c = '(' || c = ')' || c = ',' || c = '$'))).filter
      (fun c => !c.isWhitespace)).filter (fun c => !(c = ',')))

/-- Matching-parentheses test of parseAmount, taken on the trimmed input:
it starts with an opening and ends with a closing parenthesis. -/
def hasParens (value : Str) : Bool :=
  (trimWs value).head? = some '(' && (trimWs value).getLast? = some ')'

/-- Translation of parseAmount from src/lib/csv.ts: reject the empty
string, record whether the trimmed value is wrapped in parentheses,
strip parentheses, commas, dollar signs and whitespace, convert with
Number, and negate to minus the absolute value when parentheses were
present or the cleaned text starts with a minus sign. -/
def parseAmount (value : Str) : Option ℚ :=
  if value = [] then none
  else
    let text := amountCleaned value
    match jsNumber text with
    | none => none
    | some parsed =>
      let negative := hasParens value || text.head? = some '-'
      some (if negative then -jsAbs parsed else parsed)

/-- The transaction record of src/lib/types.ts. -/
structure Transaction where
  id : Str
  importId : Str
  date : JsDate
  description : Str
  amount : ℚ
  category : Str
  manual : Bool
  rawType : Str
  location : Str
deriving DecidableEq

/-- A category rule of src/lib/types.ts: a label with ordered keywords. -/
structure CategoryRule where
  category : Str
  keywords : List Str
deriving DecidableEq

/-- Model of String.prototype.includes: the needle occurs as a
contiguous substring of the haystack. -/
def strIncludes (haystack needle : Str) : Bool :=
  match haystack with
  | [] => needle.isEmpty
  | c :: t => needle.isPrefixOf (c :: t) || strIncludes t needle

/-- The inner keyword loop of categorizeTransaction: some keyword of the
rule, trimmed and lower-cased, is nonempty and occurs in the lowered
description text. -/
def ruleMatches (text : Str) (rule : CategoryRule) : Bool :=
  rule.keywords.any (fun kw =>
    let needle := lower (trimWs kw)
    !needle.isEmpty && strIncludes text needle)

/-- The outer rule loop of categorizeTransaction. -/
def categorizeGo (text : Str) : List CategoryRule → Str
  | [] => str "Uncategorized"
  | rule :: rest => if ruleMatches text rule then rule.category else categorizeGo text rest

/-- Translation of categorizeTransaction from src/lib/rules.ts. -/
def categorizeTransaction (tx : Transaction) (rules : List CategoryRule) : Str :=
  categorizeGo (lower tx.description) rules

/-- Translation of applyRules from src/lib/rules.ts. -/
def applyRules (transactions : List Transaction) (rules : List CategoryRule) :
    List Transaction :=
  transactions.map (fun tx =>
    if tx.manual then tx
    else { tx with category := categorizeTransaction tx rules })

/-- The result record of the CSV ingestion boundary. -/
structure ParseResult where
  transactions : List Transaction
  errors : List Str
deriving DecidableEq

/-- Decimal numeral of a natural number, as template interpolation of a
JavaScript integer prints it. -/
def natRepr (n : Nat) : Str := (Nat.repr n).data

/-- Decimal numeral of an integer. -/
def intRepr (i : Int) : Str := (Int.repr i).data

/-- The transaction built by parseCsv for the accepted row with 0-based
index i: the id is the row index, a hyphen and the description, with
every whitespace run replaced by a single hyphen. -/
def mkTx (i : Nat) (row : List Str) (date : JsDate) (amount : ℚ) : Transaction :=
  { id := collapseWith '-' Char.isWhitespace (natRepr i ++ str "-" ++ row.getD 2 [])
    importId := []
    date := date
    rawType := row.getD 1 []
    description := row.getD 2 []
    location := row.getD 3 []
    amount := amount
    category := str "Uncategorized"
    manual := false }

/-- The row loop of parseCsv from src/lib/csv.ts, carrying the 0-based
index of the current row. -/
def ingestGo (i : Nat) : List (List Str) → ParseResult
  | [] => ⟨[], []⟩
  | row :: rest =>
    let r := ingestGo (i + 1) rest
    if row.length < 5 then
      ⟨r.transactions, (str "Row " ++ natRepr (i + 1) ++ str " has too few columns.") :: r.errors⟩
    else
      match parseDate (row.getD 0 []) with
      | none =>
        ⟨r.transactions, (str "Row " ++ natRepr (i + 1) ++ str " has an invalid date.") :: r.errors⟩
      | some date =>
        match parseAmount (row.getD 4 []) with
        | none =>
          ⟨r.transactions, (str "Row " ++ natRepr (i + 1) ++ str " has an invalid amount.") :: r.errors⟩
        | some amount => ⟨mkTx i row date amount :: r.transactions, r.errors⟩

/-- The ingestion boundary of the spec: the body of parseCsv applied to
the already-split rows. -/
def ingest (rows : List (List Str)) : ParseResult := ingestGo 0 rows

/-- Theorem-side per-row acceptance: the transaction the row contributes,
if any. -/
def rowTx (i : Nat) (row : List Str) : Option Transaction :=
  if row.length < 5 then none
  else
    (parseDate (row.getD 0 [])).bind (fun date =>
      (parseAmount (row.getD 4 [])).map (fun amount => mkTx i row date amount))

/-- Theorem-side per-row rejection: the error string the row contributes,
if any. -/
def rowErr (i : Nat) (row : List Str) : Option Str :=
  if row.length < 5 then some (str "Row " ++ natRepr (i + 1) ++ str " has too few columns.")
  else if parseDate (row.getD 0 []) = none then
    some (str "Row " ++ natRepr (i + 1) ++ str " has an invalid date.")
  else if parseAmount (row.getD 4 []) = none then
    some (str "Row " ++ natRepr (i + 1) ++ str " has an invalid amount.")
  else none

/-- JavaScript Map as an insertion-ordered association list; set on an
existing key updates the value in place, keeping the key position. -/
def mapSet (k : Str) (v : ℚ) : List (Str × ℚ) → List (Str × ℚ)
  | [] => [(k, v)]
  | (k2, v2) :: rest => if k2 = k then (k2, v) :: rest else (k2, v2) :: mapSet k v rest

/-- Map.get, returning none for an absent key. -/
def mapGet (k : Str) : List (Str × ℚ) → Option ℚ
  | [] => none
  | (k2, v2) :: rest => if k2 = k then some v2 else mapGet k rest

/-- One iteration of the accumulation loops of src/lib/aggregate.ts:
current = totals.get(key) ?? 0; totals.set(key, current + abs amount). -/
def accumulate (totals : List (Str × ℚ)) (k : Str) (amount : ℚ) : List (Str × ℚ) :=
  mapSet k (qadd ((mapGet k totals).getD 0) (jsAbs amount)) totals

/-- Translation of groupByCategory from src/lib/aggregate.ts. -/
def groupByCategory (transactions : List Transaction) : List (Str × ℚ) :=
  transactions.foldl
    (fun totals tx =>
      if 0 ≤ tx.amount then totals else accumulate totals tx.category tx.amount)
    []

/-- Translation of formatMonth from src/lib/aggregate.ts: the year, a
hyphen, and the one-based month padded on the left to two digits. -/
def formatMonth (date : JsDate) : Str :=
  intRepr date.year ++ str "-" ++
    (let m := natRepr (date.month + 1)
     if m.length < 2 then List.replicate (2 - m.length) '0' ++ m else m)

/-- Translation of groupByMonth from src/lib/aggregate.ts. -/
def groupByMonth (transactions : List Transaction) : List (Str × ℚ) :=
  transactions.foldl
    (fun totals tx =>
      if 0 ≤ tx.amount then totals else accumulate totals (formatMonth tx.date) tx.amount)
    []

/-- Theorem-side total: the sum of absolute values of the negative
amounts among the transactions selected by p, or none when no negative
amount is selected. -/
def negTotal (transactions : List Transaction) (p : Transaction → Bool) : Option ℚ :=
  let l := transactions.filter (fun tx => decide (tx.amount < 0) && p tx)
  if l.isEmpty then none else some ((l.map (fun tx => |tx.amount|)).sum)

/-- The two-letter US state code table of src/App.tsx. -/
def stateCodes : List Str :=
  [str "al", str "ak", str "az", str "ar", str "ca", str "co", str "ct",
   str "de", str "fl", str "ga", str "hi", str "id", str "il", str "in",
   str "ia", str "ks", str "ky", str "la", str "me", str "md", str "ma",
   str "mi", str "mn", str "ms", str "mo", str "mt", str "ne", str "nv",
   str "nh", str "nj", str "nm", str "ny", str "nc", str "nd", str "oh",
   str "ok", str "or", str "pa", str "ri", str "sc", str "sd", str "tn",
   str "tx", str "ut", str "vt", str "va", str "wa", str "wv", str "wi",
   str "wy"]

/-- ASCII lowercase letter, the a-z class of the extractor regexes. -/
def isLowerAlpha (c : Char) : Bool := 'a' ≤ c && c ≤ 'z'

/-- The character cleaning of toMerchantKeyword: every character other
than a lowercase letter, a digit or a space becomes a space. -/
def keepAlnumSpace (c : Char) : Char :=
  if isLowerAlpha c || c.isDigit || c = ' ' then c else ' '

/-- The trailing City ST heuristic of toMerchantKeyword: when the last
token is a state code it is dropped, and when the token before it is
purely alphabetic with at least three letters that one is dropped too. -/
def dropLoc (tokens : List Str) : List Str :=
  match tokens.getLast? with
  | none => tokens
  | some lastTok =>
    if lastTok ∈ stateCodes then
      let t1 := tokens.dropLast
      match t1.getLast? with
      | none => t1
      | some city =>
        if !city.isEmpty && city.all isLowerAlpha && 3 ≤ city.length then t1.dropLast
        else t1
    else tokens

/-- The token filter of toMerchantKeyword: tokens with a digit, tokens
without a lowercase letter and the noise tokens pos, wdr and dbt are
discarded. -/
def keepToken (t : Str) : Bool :=
  !t.any Char.isDigit && t.any isLowerAlpha &&
    !(t = str "pos" || t = str "wdr" || t = str "dbt")

/-- The deduplicating push of the filtered-token loop. -/
def dedupPush (acc : List Str) (t : Str) : List Str :=
  if keepToken t then (if t ∈ acc then acc else acc ++ [t]) else acc

/-- The token stage of toMerchantKeyword, from the already tokenized
description: City ST drop, filtering with deduplication, then the first
three tokens joined with spaces. -/
def tokenSig (tokens : List Str) : Str :=
  if tokens.isEmpty then []
  else List.intercalate (str " ") (((dropLoc tokens).foldl dedupPush []).take 3)

/-- Translation of toMerchantKeyword from src/App.tsx. -/
def toMerchantKeyword (description : Str) : Str :=
  let cleaned := trimWs (collapseWith ' ' Char.isWhitespace
    ((lower description).map keepAlnumSpace))
  if cleaned.isEmpty then []
  else tokenSig ((jsSplit ' ' cleaned).filter (fun w => 1 < w.length))

/-- A merchant cluster row: signature, occurrence count and the first
encountered original description. -/
structure MerchantGroup where
  key : Str
  count : Nat
  sample : Str
deriving DecidableEq

/-- Insertion into the signature map of uncategorizedMerchants: an
existing group has its count incremented in place, a new group is
appended with count 1 and the current description as sample. -/
def addGroup (k : Str) (desc : Str) : List MerchantGroup → List MerchantGroup
  | [] => [⟨k, 1, desc⟩]
  | g :: gs =>
    if g.key = k then ⟨g.key, g.count + 1, g.sample⟩ :: gs else g :: addGroup k desc gs

/-- The grouping loop of uncategorizedMerchants from src/App.tsx. -/
def buildGroups (transactions : List Transaction) : List MerchantGroup :=
  transactions.foldl
    (fun gs tx =>
      if tx.category ≠ str "Uncategorized" then gs
      else
        let k := toMerchantKeyword tx.description
        if k.isEmpty then gs else addGroup k tx.description gs)
    []

/-- Stable insertion step for descending count order: the element being
inserted precedes, in the original list, everything already placed, so
it goes before the first element of smaller or equal count and ties
keep first-encountered order. -/
def insertDesc (x : MerchantGroup) : List MerchantGroup → List MerchantGroup
  | [] => [x]
  | y :: ys => if y.count ≤ x.count then x :: y :: ys else y :: insertDesc x ys

/-- Stable sort by descending count, modelling the stable
Array.prototype.sort with comparator (a, b) => b.count - a.count. -/
def sortByCountDesc : List MerchantGroup → List MerchantGroup
  | [] => []
  | x :: xs => insertDesc x (sortByCountDesc xs)

/-- Translation of the uncategorizedMerchants memo of src/App.tsx, with
the merchant search query as an explicit argument. -/
def uncategorizedMerchants (transactions : List Transaction) (merchantQuery : Str) :
    List MerchantGroup :=
  let list := sortByCountDesc (buildGroups transactions)
  if (trimWs merchantQuery).isEmpty then list
  else
    let needle := lower (trimWs merchantQuery)
    list.filter (fun item =>
      strIncludes (lower item.key) needle || strIncludes (lower item.sample) needle)

/-- Theorem-side lookup of a signature group. -/
def lookupGroup (k : Str) : List MerchantGroup → Option MerchantGroup
  | [] => none
  | g :: gs => if g.key = k then some g else lookupGroup k gs

/-- Theorem-side selection of the Uncategorized transactions carrying a
given merchant signature. -/
def matchingTxs (transactions : List Transaction) (k : Str) : List Transaction :=
  transactions.filter
    (fun tx => tx.category = str "Uncategorized" && toMerchantKeyword tx.description = k)

theorem categorizeTransaction_category_update (tx : Transaction) (c : Str)
    (rules : List CategoryRule) :
    categorizeTransaction { tx with category := c } rules = categorizeTransaction tx rules := rfl

/-- C9: applyRules is idempotent: for every transaction list and rule
list, applying the rules twice gives the same result as applying them
once; manual transactions are untouched in both passes. -/
theorem applyRules_idempotent (ts : List Transaction) (rules : List CategoryRule) :
    applyRules (applyRules ts rules) rules = applyRules ts rules := by
  unfold applyRules
  rw [List.map_map]
  apply List.map_congr_left
  intro tx _
  by_cases h : tx.manual
  · simp [h]
  · simp only [Function.comp_apply, Bool.not_eq_true] at *
    simp only [h, if_false, Bool.false_eq_true, if_neg]
    rfl

/-- C1: applyRules returns a list of the same length and order; at every
position, a transaction with manual true is returned with every field
unchanged, and one with manual false keeps every field except category,
which becomes the categorization of its description under the rules. -/
theorem applyRules_pointwise (ts : List Transaction) (rules : List CategoryRule) :
    (applyRules ts rules).length = ts.length ∧
    ∀ (i : Nat) (tx : Transaction), ts[i]? = some tx →
      ∃ tx2 : Transaction, (applyRules ts rules)[i]? = some tx2 ∧
        tx2.id = tx.id ∧ tx2.importId = tx.importId ∧ tx2.date = tx.date ∧
        tx2.description = tx.description ∧ tx2.amount = tx.amount ∧
        tx2.manual = tx.manual ∧ tx2.rawType = tx.rawType ∧ tx2.location = tx.location ∧
        (tx.manual = true → tx2.category = tx.category) ∧
        (tx.manual = false → tx2.category = categorizeTransaction tx rules) := by
  constructor
  · simp [applyRules]
  · intro i tx h
    refine ⟨if tx.manual then tx else { tx with category := categorizeTransaction tx rules },
      ?_, ?_⟩
    · simp [applyRules, List.getElem?_map, h]
    · by_cases hm : tx.manual <;> simp [hm]

/-- C1 witness: a manual transaction keeps its category with all other
fields intact, on a concrete one-element list. -/
theorem applyRules_pointwise_witness :
    ∃ tx2 : Transaction, (applyRules
        [{ id := str "a", importId := [], date := ⟨2021, 0, 1⟩,
           description := str "COFFEE SHOP", amount := (-4 : ℚ), category := str "Keep",
           manual := true, rawType := [], location := [] }]
        [⟨str "A", [str "shop"]⟩])[0]? = some tx2 ∧
      tx2.id = str "a" ∧ tx2.importId = [] ∧ tx2.date = ⟨2021, 0, 1⟩ ∧
      tx2.description = str "COFFEE SHOP" ∧ tx2.amount = (-4 : ℚ) ∧
      tx2.manual = true ∧ tx2.rawType = [] ∧ tx2.location = [] ∧
      (true = true → tx2.category = str "Keep") ∧
      (true = false → tx2.category = categorizeTransaction
        { id := str "a", importId := [], date := ⟨2021, 0, 1⟩,
          description := str "COFFEE SHOP", amount := (-4 : ℚ), category := str "Keep",
          manual := true, rawType := [], location := [] } [⟨str "A", [str "shop"]⟩]) := by
  have h := (applyRules_pointwise
    [{ id := str "a", importId := [], date := ⟨2021, 0, 1⟩,
       description := str "COFFEE SHOP", amount := (-4 : ℚ), category := str "Keep",
       manual := true, rawType := [], location := [] }]
    [⟨str "A", [str "shop"]⟩]).2 0
    { id := str "a", importId := [], date := ⟨2021, 0, 1⟩,
      description := str "COFFEE SHOP", amount := (-4 : ℚ), category := str "Keep",
      manual := true, rawType := [], location := [] } (by rfl)
  exact h

theorem categorizeGo_of_no_match (text : Str) :
    ∀ rules : List CategoryRule, (∀ r ∈ rules, ruleMatches text r = false) →
      categorizeGo text rules = str "Uncategorized"
  | [], _ => rfl
  | rule :: rest, h => by
    have h0 := h rule (List.mem_cons_self rule rest)
    simp only [categorizeGo, h0, Bool.false_eq_true, if_false]
    exact categorizeGo_of_no_match text rest (fun r hr => h r (List.mem_cons_of_mem rule hr))

theorem categorizeGo_first_match (text : Str) (r : CategoryRule) (post : List CategoryRule) :
    ∀ pre : List CategoryRule, (∀ r2 ∈ pre, ruleMatches text r2 = false) →
      ruleMatches text r = true →
      categorizeGo text (pre ++ r :: post) = r.category
  | [], _, hr => by simp [categorizeGo, hr]
  | rule :: rest, h, hr => by
    have h0 := h rule (List.mem_cons_self rule rest)
    simp only [List.cons_append, categorizeGo, h0, Bool.false_eq_true, if_false]
    exact categorizeGo_first_match text r post rest
      (fun r2 h2 => h r2 (List.mem_cons_of_mem rule h2)) hr

/-- C5: categorize lower-cases the description and scans rules in list
order: a rule fires exactly when one of its keywords, trimmed and
lower-cased, is nonempty and a substring of the lowered description; the
first firing rule gives the category, no firing rule gives
Uncategorized; with rules A:[shop] then B:[shop, mart], every
description whose lowering contains shop yields A. -/
theorem categorize_first_match_spec :
    (∀ (text : Str) (r : CategoryRule),
      ruleMatches text r = true ↔
        ∃ kw ∈ r.keywords, lower (trimWs kw) ≠ [] ∧
          strIncludes text (lower (trimWs kw)) = true) ∧
    (∀ (tx : Transaction) (rules : List CategoryRule),
      (∀ r ∈ rules, ruleMatches (lower tx.description) r = false) →
      categorizeTransaction tx rules = str "Uncategorized") ∧
    (∀ (tx : Transaction) (pre : List CategoryRule) (r : CategoryRule)
        (post : List CategoryRule),
      (∀ r2 ∈ pre, ruleMatches (lower tx.description) r2 = false) →
      ruleMatches (lower tx.description) r = true →
      categorizeTransaction tx (pre ++ r :: post) = r.category) ∧
    (∀ tx : Transaction,
      strIncludes (lower tx.description) (str "shop") = true →
      categorizeTransaction tx
        [⟨str "A", [str "shop"]⟩, ⟨str "B", [str "shop", str "mart"]⟩] = str "A") := by
  refine ⟨?_, ?_, ?_, ?_⟩
  · intro text r
    simp only [ruleMatches, List.any_eq_true, Bool.and_eq_true, Bool.not_eq_true',
      List.isEmpty_eq_false]
  · intro tx rules h
    exact categorizeGo_of_no_match (lower tx.description) rules h
  · intro tx pre r post hpre hr
    exact categorizeGo_first_match (lower tx.description) r post pre hpre hr
  · intro tx h
    have e1 : lower (trimWs (str "shop")) = str "shop" := by decide
    have e2 : (str "shop").isEmpty = false := by decide
    have hm : ruleMatches (lower tx.description) ⟨str "A", [str "shop"]⟩ = true := by
      simp [ruleMatches, e1, e2, h]
    show categorizeGo (lower tx.description) _ = str "A"
    simp [categorizeGo, hm]

/-- C5 witness: a concrete description containing shop is categorized A
by the ordered rules, through the theorem. -/
theorem categorize_first_match_spec_witness :
    categorizeTransaction
      { id := [], importId := [], date := ⟨2021, 0, 1⟩,
        description := str "My Shop 12", amount := (0 : ℚ), category := [],
        manual := false, rawType := [], location := [] }
      [⟨str "A", [str "shop"]⟩, ⟨str "B", [str "shop", str "mart"]⟩] = str "A" :=
  categorize_first_match_spec.2.2.2
    { id := [], importId := [], date := ⟨2021, 0, 1⟩,
      description := str "My Shop 12", amount := (0 : ℚ), category := [],
      manual := false, rawType := [], location := [] } (by decide)

theorem rowTx_short {i : Nat} {row : List Str} (h : row.length < 5) : rowTx i row = none := by
  unfold rowTx
  rw [if_pos h]

theorem rowErr_short {i : Nat} {row : List Str} (h : row.length < 5) :
    rowErr i row = some (str "Row " ++ natRepr (i + 1) ++ str " has too few columns.") := by
  unfold rowErr
  rw [if_pos h]

theorem rowTx_badDate {i : Nat} {row : List Str} (h : ¬row.length < 5)
    (hd : parseDate (row.getD 0 []) = none) : rowTx i row = none := by
  unfold rowTx
  rw [if_neg h, hd]
  rfl

theorem rowErr_badDate {i : Nat} {row : List Str} (h : ¬row.length < 5)
    (hd : parseDate (row.getD 0 []) = none) :
    rowErr i row = some (str "Row " ++ natRepr (i + 1) ++ str " has an invalid date.") := by
  unfold rowErr
  rw [if_neg h, if_pos hd]

theorem rowTx_badAmount {i : Nat} {row : List Str} {date : JsDate} (h : ¬row.length < 5)
    (hd : parseDate (row.getD 0 []) = some date)
    (ha : parseAmount (row.getD 4 []) = none) : rowTx i row = none := by
  unfold rowTx
  rw [if_neg h, hd, Option.some_bind, ha]
  rfl

theorem rowErr_badAmount {i : Nat} {row : List Str} {date : JsDate} (h : ¬row.length < 5)
    (hd : parseDate (row.getD 0 []) = some date)
    (ha : parseAmount (row.getD 4 []) = none) :
    rowErr i row = some (str "Row " ++ natRepr (i + 1) ++ str " has an invalid amount.") := by
  unfold rowErr
  rw [if_neg h, if_neg (by rw [hd]; exact fun hh => Option.noConfusion hh), if_pos ha]

theorem rowTx_ok {i : Nat} {row : List Str} {date : JsDate} {amount : ℚ}
    (h : ¬row.length < 5) (hd : parseDate (row.getD 0 []) = some date)
    (ha : parseAmount (row.getD 4 []) = some amount) :
    rowTx i row = some (mkTx i row date amount) := by
  unfold rowTx
  rw [if_neg h, hd, Option.some_bind, ha, Option.map_some']

theorem rowErr_ok {i : Nat} {row : List Str} {date : JsDate} {amount : ℚ}
    (h : ¬row.length < 5) (hd : parseDate (row.getD 0 []) = some date)
    (ha : parseAmount (row.getD 4 []) = some amount) : rowErr i row = none := by
  unfold rowErr
  rw [if_neg h, if_neg (by rw [hd]; exact fun hh => Option.noConfusion hh),
    if_neg (by rw [ha]; exact fun hh => Option.noConfusion hh)]

theorem ingestGo_eq : ∀ (rows : List (List Str)) (i : Nat),
    ingestGo i rows =
      ⟨(List.enumFrom i rows).filterMap (fun p => rowTx p.1 p.2),
       (List.enumFrom i rows).filterMap (fun p => rowErr p.1 p.2)⟩
  | [], i => rfl
  | row :: rest, i => by
    have ih := ingestGo_eq rest (i + 1)
    rw [List.enumFrom_cons, List.filterMap_cons, List.filterMap_cons]
    by_cases h5 : row.length < 5
    · rw [ingestGo, if_pos h5, ih, rowTx_short h5, rowErr_short h5]
    · cases hd : parseDate (row.getD 0 []) with
      | none =>
        rw [ingestGo, if_neg h5, hd, ih, rowTx_badDate h5 hd, rowErr_badDate h5 hd]
      | some date =>
        cases ha : parseAmount (row.getD 4 []) with
        | none =>
          rw [ingestGo, if_neg h5, hd, ha, ih, rowTx_badAmount h5 hd ha,
            rowErr_badAmount h5 hd ha]
        | some amount =>
          rw [ingestGo, if_neg h5, hd, ha, ih, rowTx_ok h5 hd ha, rowErr_ok h5 hd ha]

theorem ingestGo_length : ∀ (rows : List (List Str)) (i : Nat),
    (ingestGo i rows).transactions.length + (ingestGo i rows).errors.length = rows.length
  | [], _ => rfl
  | row :: rest, i => by
    have ih := ingestGo_length rest (i + 1)
    rw [ingestGo]
    by_cases h5 : row.length < 5
    · rw [if_pos h5]
      simp only [List.length_cons]
      omega
    · rw [if_neg h5]
      cases hd : parseDate (row.getD 0 []) with
      | none => simp only [List.length_cons]; omega
      | some date =>
        cases ha : parseAmount (row.getD 4 []) with
        | none => simp only [List.length_cons]; omega
        | some amount => simp only [List.length_cons]; omega

/-- C2: ingest rejects invalid rows independently and locally: the error
list has exactly one entry per bad row, in row order, with the exact
message of the first failed check (fewer than five fields, then invalid
date, then invalid amount) citing the 1-based row number; a row
produces an error exactly when it contributes no transaction, and
transactions plus errors partition the rows, so one bad row among N
good rows gives N transactions and one error. -/
theorem ingest_row_errors (rows : List (List Str)) :
    (ingest rows).errors = rows.enum.filterMap (fun p =>
      if p.2.length < 5 then
        some (str "Row " ++ natRepr (p.1 + 1) ++ str " has too few columns.")
      else if parseDate (p.2.getD 0 []) = none then
        some (str "Row " ++ natRepr (p.1 + 1) ++ str " has an invalid date.")
      else if parseAmount (p.2.getD 4 []) = none then
        some (str "Row " ++ natRepr (p.1 + 1) ++ str " has an invalid amount.")
      else none) ∧
    (ingest rows).transactions.length + (ingest rows).errors.length = rows.length ∧
    ∀ (i : Nat) (row : List Str), rowTx i row = none ↔ (rowErr i row).isSome = true := by
  refine ⟨?_, ingestGo_length rows 0, ?_⟩
  · rw [List.enum_eq_enumFrom]
    show (ingestGo 0 rows).errors = _
    rw [ingestGo_eq rows 0]
    rfl
  · intro i row
    by_cases h5 : row.length < 5
    · rw [rowTx_short h5, rowErr_short h5]
      simp
    · cases hd : parseDate (row.getD 0 []) with
      | none =>
        rw [rowTx_badDate h5 hd, rowErr_badDate h5 hd]
        simp
      | some date =>
        cases ha : parseAmount (row.getD 4 []) with
        | none =>
          rw [rowTx_badAmount h5 hd ha, rowErr_badAmount h5 hd ha]
          simp
        | some amount =>
          rw [rowTx_ok h5 hd ha, rowErr_ok h5 hd ha]
          simp

/-- A sample well-formed CSV row. -/
def sampleRow : List Str :=
  [str "1/2/2020", str "DEBIT", str "COFFEE SHOP", str "NY", str "(4.50)"]

/-- C8: the accepted transactions of ingest are exactly the per-row
parses in input row order, and every accepted transaction is emitted
with category Uncategorized, manual false, empty importId, the row
description, and an id built from the 0-based row index, a hyphen and
the description, with every whitespace run replaced by a single
hyphen. -/
theorem ingest_accepted_rows (rows : List (List Str)) :
    (ingest rows).transactions = rows.enum.filterMap (fun p => rowTx p.1 p.2) ∧
    ∀ (i : Nat) (row : List Str) (t : Transaction), rowTx i row = some t →
      t.category = str "Uncategorized" ∧ t.manual = false ∧ t.importId = [] ∧
      t.description = row.getD 2 [] ∧
      t.id = collapseWith '-' Char.isWhitespace (natRepr i ++ str "-" ++ row.getD 2 []) := by
  constructor
  · rw [List.enum_eq_enumFrom]
    show (ingestGo 0 rows).transactions = _
    rw [ingestGo_eq rows 0]
  · intro i row t ht
    unfold rowTx at ht
    by_cases h5 : row.length < 5
    · rw [if_pos h5] at ht
      exact Option.noConfusion ht
    · rw [if_neg h5] at ht
      cases hd : parseDate (row.getD 0 []) with
      | none =>
        rw [hd] at ht
        exact Option.noConfusion ht
      | some date =>
        rw [hd, Option.some_bind] at ht
        cases ha : parseAmount (row.getD 4 []) with
        | none =>
          rw [ha] at ht
          exact Option.noConfusion ht
        | some amount =>
          rw [ha, Option.map_some', Option.some.injEq] at ht
          subst ht
          exact ⟨rfl, rfl, rfl, rfl, rfl⟩

/-- C8 witness: the sample row is accepted with the documented constant
fields and derived id. -/
theorem ingest_accepted_rows_witness :
    ∃ t : Transaction, rowTx 0 sampleRow = some t ∧
      t.category = str "Uncategorized" ∧ t.manual = false ∧ t.importId = [] ∧
      t.description = sampleRow.getD 2 [] ∧
      t.id = collapseWith '-' Char.isWhitespace
        (natRepr 0 ++ str "-" ++ sampleRow.getD 2 []) := by
  refine ⟨mkTx 0 sampleRow ⟨2020, 0, 2⟩ (mkRat (-9) 2), ?_, ?_⟩
  · decide
  · exact (ingest_accepted_rows [sampleRow]).2 0 sampleRow
      (mkTx 0 sampleRow ⟨2020, 0, 2⟩ (mkRat (-9) 2)) (by decide)

end Finances

namespace Finances

theorem qadd_eq (a b : ℚ) : qadd a b = a + b := by
  unfold qadd
  rw [Rat.mkRat_eq_div]
  have ha : (a.den : ℚ) ≠ 0 := Nat.cast_ne_zero.mpr a.den_nz
  have hb : (b.den : ℚ) ≠ 0 := Nat.cast_ne_zero.mpr b.den_nz
  conv_rhs => rw [← Rat.num_div_den a, ← Rat.num_div_den b]
  field_simp
  try ring

theorem qsub_eq (a b : ℚ) : qsub a b = a - b := by
  unfold qsub
  rw [Rat.mkRat_eq_div]
  have ha : (a.den : ℚ) ≠ 0 := Nat.cast_ne_zero.mpr a.den_nz
  have hb : (b.den : ℚ) ≠ 0 := Nat.cast_ne_zero.mpr b.den_nz
  conv_rhs => rw [← Rat.num_div_den a, ← Rat.num_div_den b]
  field_simp
  try ring

theorem jsAbs_eq (q : ℚ) : jsAbs q = |q| := by
  unfold jsAbs
  split
  · rename_i h
    exact (abs_of_neg h).symm
  · rename_i h
    exact (abs_of_nonneg (not_lt.mp h)).symm

theorem mapGet_mapSet_self (k : Str) (v : ℚ) :
    ∀ m : List (Str × ℚ), mapGet k (mapSet k v m) = some v
  | [] => by simp [mapSet, mapGet]
  | (k2, v2) :: rest => by
    by_cases h : k2 = k
    · simp [mapSet, mapGet, h]
    · simp only [mapSet, if_neg h, mapGet, if_neg h]
      exact mapGet_mapSet_self k v rest

theorem mapGet_mapSet_other (k k2 : Str) (v : ℚ) (h : k2 ≠ k) :
    ∀ m : List (Str × ℚ), mapGet k2 (mapSet k v m) = mapGet k2 m
  | [] => by simp [mapSet, mapGet, Ne.symm h]
  | (k3, v3) :: rest => by
    by_cases h3 : k3 = k
    · subst h3
      simp [mapSet, mapGet, Ne.symm h]
    · simp only [mapSet, if_neg h3, mapGet]
      by_cases h4 : k3 = k2
      · simp [h4]
      · simp only [if_neg h4]
        exact mapGet_mapSet_other k k2 v h rest

theorem mapGet_accumulate_self (m : List (Str × ℚ)) (k : Str) (a : ℚ) :
    mapGet k (accumulate m k a) = some ((mapGet k m).getD 0 + |a|) := by
  unfold accumulate
  rw [mapGet_mapSet_self, qadd_eq, jsAbs_eq]

theorem mapGet_accumulate_other (m : List (Str × ℚ)) (k k2 : Str) (a : ℚ) (h : k2 ≠ k) :
    mapGet k2 (accumulate m k a) = mapGet k2 m := by
  unfold accumulate
  rw [mapGet_mapSet_other k k2 _ h]

theorem foldAgg_get (key : Transaction → Str) :
    ∀ (txs : List Transaction) (m : List (Str × ℚ)) (k : Str),
      mapGet k (txs.foldl (fun totals tx =>
        if 0 ≤ tx.amount then totals else accumulate totals (key tx) tx.amount) m) =
      (if (txs.filter (fun tx => decide (tx.amount < 0) && decide (key tx = k))).isEmpty
       then mapGet k m
       else some ((mapGet k m).getD 0 +
         ((txs.filter (fun tx => decide (tx.amount < 0) && decide (key tx = k))).map
           (fun tx => |tx.amount|)).sum))
  | [], m, k => by simp
  | tx :: rest, m, k => by
    by_cases h0 : 0 ≤ tx.amount
    · have hc : (decide (tx.amount < 0) && decide (key tx = k)) = false := by
        simp [not_lt.mpr h0]
      simp only [List.foldl_cons, if_pos h0, List.filter_cons, hc, Bool.false_eq_true,
        if_false]
      exact foldAgg_get key rest m k
    · have hlt : tx.amount < 0 := lt_of_not_ge h0
      by_cases hk : key tx = k
      · have hc : (decide (tx.amount < 0) && decide (key tx = k)) = true := by
          simp [hlt, hk]
        simp only [List.foldl_cons, if_neg h0, List.filter_cons, hc, if_true]
        rw [hk, foldAgg_get key rest (accumulate m k tx.amount) k,
          mapGet_accumulate_self]
        by_cases hfr :
            (rest.filter (fun tx => decide (tx.amount < 0) && decide (key tx = k))).isEmpty
        · rw [if_pos hfr]
          rw [List.isEmpty_iff] at hfr
          simp [hfr]
        · rw [if_neg hfr]
          simp only [List.isEmpty_cons, Bool.false_eq_true, if_false, Option.getD_some,
            List.map_cons, List.sum_cons]
          rw [add_assoc]
      · have hc : (decide (tx.amount < 0) && decide (key tx = k)) = false := by
          simp [hk]
        simp only [List.foldl_cons, if_neg h0, List.filter_cons, hc, Bool.false_eq_true,
          if_false]
        rw [foldAgg_get key rest (accumulate m (key tx) tx.amount) k,
          mapGet_accumulate_other m (key tx) k tx.amount (fun he => hk he.symm)]

end Finances

namespace Finances

/-- C7: in both aggregations only transactions with negative amount
contribute, each adding its absolute value under its key; non-negative
amounts are excluded entirely and create no key: the lookup of any key
equals the expense-only total of the matching transactions, or absence
when no negative amount matches; one -50 in category X together with
one +1000 in category Y yields exactly the map X to 50; the month key
is the calendar year, a hyphen and the zero-padded one-based month. -/
theorem totals_expense_only (txs : List Transaction) :
    (∀ c : Str, mapGet c (groupByCategory txs) =
      negTotal txs (fun tx => decide (tx.category = c))) ∧
    (∀ k : Str, mapGet k (groupByMonth txs) =
      negTotal txs (fun tx => decide (formatMonth tx.date = k))) ∧
    groupByCategory
      [{ id := str "t1", importId := [], date := ⟨2021, 0, 15⟩, description := [],
         amount := (-50 : ℚ), category := str "X", manual := false, rawType := [],
         location := [] },
       { id := str "t2", importId := [], date := ⟨2021, 1, 3⟩, description := [],
         amount := (1000 : ℚ), category := str "Y", manual := false, rawType := [],
         location := [] }] = [(str "X", (50 : ℚ))] ∧
    formatMonth ⟨2021, 0, 15⟩ = str "2021-01" ∧
    formatMonth ⟨2021, 10, 3⟩ = str "2021-11" := by
  refine ⟨?_, ?_, by decide, by decide, by decide⟩
  · intro c
    unfold groupByCategory negTotal
    rw [foldAgg_get (fun tx => tx.category) txs [] c]
    simp [mapGet]
  · intro k
    unfold groupByMonth negTotal
    rw [foldAgg_get (fun tx => formatMonth tx.date) txs [] k]
    simp [mapGet]

end Finances

namespace Finances

theorem decValue_nonneg (ip frac : Str) : 0 ≤ decValue ip frac := by
  unfold decValue
  rw [Rat.mkRat_eq_div]
  positivity

theorem parseDec_nonneg {s : Str} {p : ℚ} (h : parseDec s = some p) : 0 ≤ p := by
  unfold parseDec at h
  dsimp only at h
  split at h
  · split at h
    · exact Option.noConfusion h
    · rw [Option.some.injEq] at h
      rw [← h]
      exact decValue_nonneg _ _
  · split at h
    · rw [Option.some.injEq] at h
      rw [← h]
      exact decValue_nonneg _ _
    · exact Option.noConfusion h
  · exact Option.noConfusion h

theorem jsNumber_neg_head {s : Str} {p : ℚ} (h : jsNumber s = some p) (hp : p < 0) :
    (trimWs s).head? = some '-' := by
  unfold jsNumber at h
  split at h
  · rw [Option.some.injEq] at h
    exact absurd hp (by rw [← h]; norm_num)
  · rename_i ht
    rw [ht]
    rfl
  · exact absurd hp (not_lt.mpr (parseDec_nonneg h))
  · exact absurd hp (not_lt.mpr (parseDec_nonneg h))

theorem dropWhile_eq_self_of_all {p : Char → Bool} {s : Str}
    (h : ∀ c ∈ s, p c = false) : s.dropWhile p = s := by
  cases s with
  | nil => rfl
  | cons c cs =>
    rw [List.dropWhile_cons_of_neg]
    simp [h c (List.mem_cons_self c cs)]

theorem trimWs_eq_self {s : Str} (h : ∀ c ∈ s, c.isWhitespace = false) : trimWs s = s := by
  unfold trimWs
  rw [dropWhile_eq_self_of_all h,
    dropWhile_eq_self_of_all (fun c hc => h c (List.mem_reverse.mp hc)),
    List.reverse_reverse]

theorem amountCleaned_no_ws (v : Str) : ∀ c ∈ amountCleaned v, c.isWhitespace = false := by
  intro c hc
  unfold amountCleaned at hc
  rw [List.mem_filter] at hc
  obtain ⟨hc2, _⟩ := hc
  rw [List.mem_filter] at hc2
  obtain ⟨_, hws⟩ := hc2
  simpa using hws

/-- C10 counterexample: the trimmed input (0) is wrapped in matching
parentheses, yet the parse succeeds with result 0, which is not
negative; so success under the parenthesized-negation condition does
not make the result negative. -/
theorem parseAmount_paren_zero_counterexample :
    parseAmount (str "(0)") = some 0 ∧ hasParens (str "(0)") = true ∧ ¬(0 : ℚ) < 0 :=
  ⟨by decide, by decide, by norm_num⟩

/-- C10 amended: on every successful parse the result is minus the
absolute value of the converted number when the trimmed input is wrapped
in matching parentheses or the cleaned text starts with a minus sign,
and the converted number itself otherwise; hence the result is negative
exactly when that condition holds and the converted number is nonzero.
The listed concrete inputs behave as the claim states. -/
theorem parseAmount_sign_spec :
    (∀ (v : Str) (q : ℚ), parseAmount v = some q →
      ∃ p : ℚ, jsNumber (amountCleaned v) = some p ∧
        q = (if (hasParens v || (amountCleaned v).head? = some '-') = true then -|p| else p) ∧
        (q < 0 ↔ ((hasParens v || (amountCleaned v).head? = some '-') = true ∧ p ≠ 0))) ∧
    parseAmount (str "($-5)") = some (-5) ∧
    parseAmount (str "(-5)") = some (-5) ∧
    parseAmount (str "(5)") = some (-5) ∧
    parseAmount (str "(5") = some (5) := by
  refine ⟨?_, by decide, by decide, by decide, by decide⟩
  intro v q h
  unfold parseAmount at h
  split at h
  · exact Option.noConfusion h
  · dsimp only at h
    cases hj : jsNumber (amountCleaned v) with
    | none =>
      rw [hj] at h
      exact Option.noConfusion h
    | some p =>
      rw [hj] at h
      rw [Option.some.injEq] at h
      refine ⟨p, rfl, ?_, ?_⟩
      · rw [← h]
        by_cases hc : (hasParens v || decide ((amountCleaned v).head? = some '-')) = true
        · rw [if_pos hc, if_pos hc, jsAbs_eq]
        · rw [if_neg hc, if_neg hc]
      · by_cases hc : (hasParens v || decide ((amountCleaned v).head? = some '-')) = true
        · rw [← h, if_pos hc, jsAbs_eq]
          simp only [hc, true_and]
          rw [neg_lt_zero, abs_pos]
        · rw [← h, if_neg hc]
          simp only [hc, Bool.false_eq_true, false_and, iff_false]
          intro hneg
          have hhead := jsNumber_neg_head hj hneg
          rw [trimWs_eq_self (amountCleaned_no_ws v)] at hhead
          apply hc
          simp [hhead]

end Finances

namespace Finances

theorem isDigit_not_ws {c : Char} (h : c.isDigit = true) : c.isWhitespace = false := by
  simp [Char.isDigit] at h
  obtain ⟨h1, h2⟩ := h
  simp [Char.isWhitespace]
  and_intros <;> (intro he; subst he; exact absurd h1 (by decide))

theorem isDigit_ne {c x : Char} (h : c.isDigit = true) (hx : x.isDigit = false) : c ≠ x := by
  intro he
  subst he
  rw [h] at hx
  exact Bool.noConfusion hx

theorem jsSplit_of_not_mem {sep : Char} : ∀ {s : Str}, sep ∉ s → jsSplit sep s = [s]
  | [], _ => rfl
  | c :: cs, h => by
    have hc : ¬c = sep := fun he => h (he ▸ List.mem_cons_self c cs)
    simp only [jsSplit, if_neg hc,
      jsSplit_of_not_mem (fun hm => h (List.mem_cons_of_mem c hm))]

theorem jsSplit_append {sep : Char} :
    ∀ {a : Str} (b : Str), sep ∉ a → jsSplit sep (a ++ sep :: b) = a :: jsSplit sep b
  | [], b, _ => by simp [jsSplit]
  | c :: cs, b, h => by
    have hc : ¬c = sep := fun he => h (he ▸ List.mem_cons_self c cs)
    have ih := jsSplit_append (a := cs) b (fun hm => h (List.mem_cons_of_mem c hm))
    show jsSplit sep (c :: (cs ++ sep :: b)) = (c :: cs) :: jsSplit sep b
    simp only [jsSplit, if_neg hc, ih]

theorem takeWhile_eq_self_of_all {p : Char → Bool} :
    ∀ {s : Str}, (∀ c ∈ s, p c = true) → s.takeWhile p = s
  | [], _ => rfl
  | c :: cs, h => by
    rw [List.takeWhile_cons_of_pos (h c (List.mem_cons_self c cs)),
      takeWhile_eq_self_of_all (fun x hx => h x (List.mem_cons_of_mem c hx))]

theorem dropWhile_eq_nil_of_all {p : Char → Bool} :
    ∀ {s : Str}, (∀ c ∈ s, p c = true) → s.dropWhile p = []
  | [], _ => rfl
  | c :: cs, h => by
    rw [List.dropWhile_cons_of_pos (h c (List.mem_cons_self c cs))]
    exact dropWhile_eq_nil_of_all (fun x hx => h x (List.mem_cons_of_mem c hx))

theorem parseDec_digits {s : Str} (hne : s ≠ []) (hd : ∀ c ∈ s, c.isDigit = true) :
    parseDec s = some ((natVal s : ℚ)) := by
  unfold parseDec
  dsimp only
  rw [takeWhile_eq_self_of_all hd, dropWhile_eq_nil_of_all hd]
  rw [if_neg hne]
  unfold decValue
  simp only [List.length_nil, pow_zero, mul_one, Option.some.injEq]
  rw [show ((natVal [] : ℤ)) = 0 from rfl, add_zero, Rat.mkRat_one]
  norm_cast

theorem jsNumber_digits {s : Str} (hne : s ≠ []) (hd : ∀ c ∈ s, c.isDigit = true) :
    jsNumber s = some ((natVal s : ℚ)) := by
  have hws : ∀ c ∈ s, c.isWhitespace = false := fun c hc => isDigit_not_ws (hd c hc)
  unfold jsNumber
  rw [trimWs_eq_self hws]
  cases s with
  | nil => exact absurd rfl hne
  | cons c cs =>
    have hc : c.isDigit = true := hd c (List.mem_cons_self c cs)
    split
    · rename_i heq
      exact absurd heq (by simp)
    · rename_i rest heq
      rw [List.cons.injEq] at heq
      exact absurd heq.1 (isDigit_ne hc (by decide))
    · rename_i rest heq
      rw [List.cons.injEq] at heq
      exact absurd heq.1 (isDigit_ne hc (by decide))
    · exact parseDec_digits hne hd

end Finances

namespace Finances

theorem daysInYear_bounds (y : Int) : 365 ≤ daysInYear y ∧ daysInYear y ≤ 366 := by
  unfold daysInYear
  split <;> omega

theorem yearsDaysFwd_bounds : ∀ n : Nat, 365 * n ≤ yearsDaysFwd n ∧ yearsDaysFwd n ≤ 366 * n
  | 0 => by simp [yearsDaysFwd]
  | n + 1 => by
    have ih := yearsDaysFwd_bounds n
    have hy := daysInYear_bounds (1970 + n)
    unfold yearsDaysFwd
    push_cast
    push_cast at ih
    constructor <;> nlinarith [ih.1, ih.2, hy.1, hy.2]

theorem yearsDaysBwd_bounds : ∀ n : Nat, 365 * n ≤ yearsDaysBwd n ∧ yearsDaysBwd n ≤ 366 * n
  | 0 => by simp [yearsDaysBwd]
  | n + 1 => by
    have ih := yearsDaysBwd_bounds n
    have hy := daysInYear_bounds (1970 - ((n : Int) + 1))
    unfold yearsDaysBwd
    push_cast
    push_cast at ih
    constructor <;> nlinarith [ih.1, ih.2, hy.1, hy.2]

theorem monthOffset_bounds (y : Int) : ∀ m : Nat, 0 ≤ monthOffset y m ∧ monthOffset y m ≤ 31 * m
  | 0 => by simp [monthOffset]
  | m + 1 => by
    have ih := monthOffset_bounds y m
    have hm := daysInMonth_bounds y m
    unfold monthOffset
    push_cast
    push_cast at ih
    constructor <;> nlinarith [ih.1, ih.2, hm.1, hm.2]

theorem epochDays_small {y : Int} {m : Nat} {d : Int} (hy1 : 1000 ≤ y) (hy2 : y ≤ 9999)
    (hm : m ≤ 11) (hd1 : 1 ≤ d) (hd2 : d ≤ 31) :
    (epochDays ⟨y, m, d⟩).natAbs ≤ 100000000 := by
  have hmo := monthOffset_bounds y m
  have hmb : (31 : Int) * m ≤ 31 * 11 := by
    have : (m : Int) ≤ 11 := by exact_mod_cast hm
    nlinarith
  unfold epochDays yearsDays
  dsimp only
  by_cases hge : 1970 ≤ y
  · rw [if_pos hge]
    have hb := yearsDaysFwd_bounds (y - 1970).toNat
    have hn : ((y - 1970).toNat : Int) = y - 1970 := Int.toNat_of_nonneg (by omega)
    rw [hn] at hb
    omega
  · rw [if_neg hge]
    have hb := yearsDaysBwd_bounds (1970 - y).toNat
    have hn : ((1970 - y).toNat : Int) = 1970 - y := Int.toNat_of_nonneg (by omega)
    rw [hn] at hb
    omega

theorem normDay_in_range {y : Int} {m : Nat} {d : Int} (hd1 : 1 ≤ d)
    (hd2 : d ≤ daysInMonth y m) : normDay y m d = (y, m, d) := by
  unfold normDay
  have h64 : d.natAbs + 64 = (d.natAbs + 63) + 1 := rfl
  rw [h64]
  unfold normDayGo
  rw [if_neg (by omega), if_neg (by omega)]

end Finances

namespace Finances

theorem ratTrunc_natCast (n : Nat) : ratTrunc ((n : ℚ)) = (n : ℤ) := by
  unfold ratTrunc
  rw [Rat.num_natCast, Rat.den_natCast]
  rw [show ((1 : ℕ) : ℤ) = 1 from rfl, Int.tdiv_one]

theorem ratTrunc_sub_one {m : Nat} (hm : 1 ≤ m) :
    ratTrunc (qsub ((m : ℚ)) 1) = ((m - 1 : ℕ) : ℤ) := by
  rw [qsub_eq]
  rw [show ((m : ℚ)) - 1 = (((m - 1 : ℕ)) : ℚ) by rw [Nat.cast_sub hm]; push_cast; ring]
  exact ratTrunc_natCast (m - 1)

theorem small_fdiv {k : Nat} (h : k < 12) : ((k : ℤ)).fdiv 12 = 0 := by
  rw [Int.fdiv_eq_ediv _ (by norm_num)]
  omega

theorem small_emod {k : Nat} (h : k < 12) : (((k : ℤ)).emod 12).toNat = k := by
  rw [show ((k : ℤ)).emod 12 = (k : ℤ) % 12 from rfl]
  omega

theorem truthy_natCast {n : Nat} (h : 1 ≤ n) : truthy (some ((n : ℚ))) = true := by
  simp [truthy]
  omega

theorem parseDate_roundTrip (ms ds ys : Str) (m d y : Nat)
    (hm0 : ms ≠ []) (hmd : ∀ c ∈ ms, c.isDigit = true) (hmv : natVal ms = m)
    (hd0 : ds ≠ []) (hdd : ∀ c ∈ ds, c.isDigit = true) (hdv : natVal ds = d)
    (hy0 : ys ≠ []) (hyd : ∀ c ∈ ys, c.isDigit = true) (hyv : natVal ys = y)
    (h1 : 1 ≤ m) (h2 : m ≤ 12) (h3 : 1 ≤ d)
    (h4 : (d : Int) ≤ daysInMonth (y : Int) (m - 1))
    (h5 : 1000 ≤ y) (h6 : y ≤ 9999) :
    parseDate (ms ++ '/' :: (ds ++ '/' :: ys)) = some ⟨(y : Int), m - 1, (d : Int)⟩ := by
  have hsd : ∀ c ∈ (ms ++ '/' :: (ds ++ '/' :: ys)), c.isWhitespace = false := by
    intro c hc
    rcases List.mem_append.mp hc with h | h
    · exact isDigit_not_ws (hmd c h)
    · rcases List.mem_cons.mp h with rfl | h
      · decide
      · rcases List.mem_append.mp h with h | h
        · exact isDigit_not_ws (hdd c h)
        · rcases List.mem_cons.mp h with rfl | h
          · decide
          · exact isDigit_not_ws (hyd c h)
  have hne : (ms ++ '/' :: (ds ++ '/' :: ys)) ≠ [] := by
    cases ms with
    | nil => exact absurd rfl hm0
    | cons a l => simp
  have hnm : ('/' : Char) ∉ ms := fun hmem => (isDigit_ne (hmd _ hmem) (by decide)) rfl
  have hnd : ('/' : Char) ∉ ds := fun hmem => (isDigit_ne (hdd _ hmem) (by decide)) rfl
  have hny : ('/' : Char) ∉ ys := fun hmem => (isDigit_ne (hyd _ hmem) (by decide)) rfl
  unfold parseDate
  rw [trimWs_eq_self hsd, if_neg hne, jsSplit_append _ hnm, jsSplit_append _ hnd,
    jsSplit_of_not_mem hny]
  dsimp only
  rw [jsNumber_digits hm0 hmd, jsNumber_digits hd0 hdd, jsNumber_digits hy0 hyd,
    hmv, hdv, hyv, truthy_natCast h1, truthy_natCast h3,
    truthy_natCast (show 1 ≤ y by omega)]
  show jsMakeDate ((y : ℚ)) (qsub ((m : ℚ)) 1) ((d : ℚ)) = some ⟨(y : ℤ), m - 1, (d : ℤ)⟩
  unfold jsMakeDate jsCivil
  dsimp only
  rw [ratTrunc_natCast y, ratTrunc_natCast d, ratTrunc_sub_one h1]
  have hyr : (if 0 ≤ (y : ℤ) ∧ (y : ℤ) ≤ 99 then 1900 + (y : ℤ) else (y : ℤ)) = (y : ℤ) := by
    rw [if_neg]
    intro hcon
    have hc : (1000 : ℤ) ≤ (y : ℤ) := by exact_mod_cast h5
    omega
  rw [hyr, small_fdiv (show m - 1 < 12 by omega), small_emod (show m - 1 < 12 by omega),
    add_zero, normDay_in_range (by exact_mod_cast h3) h4]
  dsimp only
  rw [if_pos (epochDays_small (by exact_mod_cast h5) (by exact_mod_cast h6) (by omega)
    (by exact_mod_cast h3) (le_trans h4 (daysInMonth_bounds _ _).2))]

end Finances

namespace Finances

theorem truthy_false_iff (o : Option ℚ) :
    truthy o = false ↔ o = none ∨ o = some 0 := by
  cases o with
  | none => simp [truthy]
  | some q =>
    simp [truthy]

theorem truthy_true_exists {o : Option ℚ} (h : truthy o = true) : ∃ q : ℚ, o = some q := by
  cases o with
  | none => exact Bool.noConfusion h
  | some q => exact ⟨q, rfl⟩

/-- C3 counterexample: the overflowing month 13 does not produce
Invalid; the date rolls over to January 15 of the following year. -/
theorem parseDate_month13_counterexample :
    parseDate (str "13/15/2020") ≠ none ∧
    parseDate (str "13/15/2020") = some ⟨2021, 0, 15⟩ := by
  constructor
  · decide
  · decide

/-- C3 amended: parseDate returns Invalid (none) exactly when the input
is empty or whitespace-only, it does not split into exactly three
slash-separated parts, some part converts to NaN or to zero, or the
constructed time value falls outside the representable JavaScript Date
range of 100,000,000 days around the epoch; an overflowing month such
as 13 does not yield Invalid but rolls over into the following year
(13/15/2020 gives January 15, 2021); and every valid MM/DD/YYYY string
parses to exactly that calendar date. -/
theorem parseDate_spec :
    (∀ s : Str, trimWs s = [] → parseDate s = none) ∧
    (∀ s : Str, (jsSplit '/' (trimWs s)).length ≠ 3 → parseDate s = none) ∧
    (∀ (s : Str) (p : Str), p ∈ jsSplit '/' (trimWs s) →
      (jsNumber p = none ∨ jsNumber p = some 0) → parseDate s = none) ∧
    (∀ s : Str, parseDate s = none →
      trimWs s = [] ∨ (jsSplit '/' (trimWs s)).length ≠ 3 ∨
      (∃ p ∈ jsSplit '/' (trimWs s), jsNumber p = none ∨ jsNumber p = some 0) ∨
      (∃ ms ds ys : Str, ∃ qm qd qy : ℚ, jsSplit '/' (trimWs s) = [ms, ds, ys] ∧
        jsNumber ms = some qm ∧ jsNumber ds = some qd ∧ jsNumber ys = some qy ∧
        100000000 < (epochDays (jsCivil qy (qsub qm 1) qd)).natAbs)) ∧
    (∀ (s : Str) (ms ds ys : Str) (qm qd qy : ℚ),
      jsSplit '/' (trimWs s) = [ms, ds, ys] →
      jsNumber ms = some qm → jsNumber ds = some qd → jsNumber ys = some qy →
      qm ≠ 0 → qd ≠ 0 → qy ≠ 0 →
      100000000 < (epochDays (jsCivil qy (qsub qm 1) qd)).natAbs →
      parseDate s = none) ∧
    parseDate (str "13/15/2020") = some ⟨2021, 0, 15⟩ ∧
    (∀ (ms ds ys : Str) (m d y : Nat),
      ms ≠ [] → (∀ c ∈ ms, c.isDigit = true) → natVal ms = m →
      ds ≠ [] → (∀ c ∈ ds, c.isDigit = true) → natVal ds = d →
      ys ≠ [] → (∀ c ∈ ys, c.isDigit = true) → natVal ys = y →
      1 ≤ m → m ≤ 12 → 1 ≤ d → (d : Int) ≤ daysInMonth (y : Int) (m - 1) →
      1000 ≤ y → y ≤ 9999 →
      parseDate (ms ++ str "/" ++ ds ++ str "/" ++ ys) =
        some ⟨(y : Int), m - 1, (d : Int)⟩) := by
  refine ⟨?_, ?_, ?_, ?_, ?_, by decide, ?_⟩
  · intro s h
    unfold parseDate
    dsimp only
    rw [if_pos h]
  · intro s hlen
    unfold parseDate
    dsimp only
    by_cases he : trimWs s = []
    · rw [if_pos he]
    · rw [if_neg he]
      split
      · rename_i ms ds ys heq
        rw [heq] at hlen
        simp at hlen
      · rfl
  · intro s p hp hfalsy
    have ht : truthy (jsNumber p) = false := (truthy_false_iff _).mpr hfalsy
    unfold parseDate
    dsimp only
    by_cases he : trimWs s = []
    · rw [if_pos he]
    · rw [if_neg he]
      split
      · rename_i ms ds ys heq
        rw [heq] at hp
        have hp3 : p = ms ∨ p = ds ∨ p = ys := by simpa using hp
        rcases hp3 with rfl | rfl | rfl
        · rw [if_neg (by simp [ht])]
        · rw [if_neg (by simp [ht])]
        · rw [if_neg (by simp [ht])]
      · rfl
  · intro s h
    unfold parseDate at h
    dsimp only at h
    by_cases he : trimWs s = []
    · exact Or.inl he
    · rw [if_neg he] at h
      right
      split at h
      · rename_i ms ds ys heq
        by_cases hc : (truthy (jsNumber ms) && truthy (jsNumber ds) &&
            truthy (jsNumber ys)) = true
        · rw [if_pos hc] at h
          rw [Bool.and_eq_true, Bool.and_eq_true] at hc
          obtain ⟨⟨hm, hd⟩, hy⟩ := hc
          obtain ⟨qm, hqm⟩ := truthy_true_exists hm
          obtain ⟨qd, hqd⟩ := truthy_true_exists hd
          obtain ⟨qy, hqy⟩ := truthy_true_exists hy
          rw [hqm, hqd, hqy] at h
          dsimp only [Option.getD_some] at h
          unfold jsMakeDate at h
          dsimp only at h
          by_cases hr : (epochDays (jsCivil qy (qsub qm 1) qd)).natAbs ≤ 100000000
          · rw [if_pos hr] at h
            exact Option.noConfusion h
          · exact Or.inr (Or.inr ⟨ms, ds, ys, qm, qd, qy, heq, hqm, hqd, hqy, by omega⟩)
        · right
          left
          rw [Bool.and_eq_true, Bool.and_eq_true] at hc
          push_neg at hc
          by_cases hm : truthy (jsNumber ms) = true
          · by_cases hd : truthy (jsNumber ds) = true
            · have hy : truthy (jsNumber ys) = false := by
                rcases Bool.eq_false_or_eq_true (truthy (jsNumber ys)) with hy | hy
                · exact absurd hy (hc ⟨hm, hd⟩)
                · exact hy
              exact ⟨ys, by rw [heq]; simp, (truthy_false_iff _).mp hy⟩
            · have hd2 : truthy (jsNumber ds) = false := by
                rcases Bool.eq_false_or_eq_true (truthy (jsNumber ds)) with hx | hx
                · exact absurd hx hd
                · exact hx
              exact ⟨ds, by rw [heq]; simp, (truthy_false_iff _).mp hd2⟩
          · have hm2 : truthy (jsNumber ms) = false := by
              rcases Bool.eq_false_or_eq_true (truthy (jsNumber ms)) with hx | hx
              · exact absurd hx hm
              · exact hx
            exact ⟨ms, by rw [heq]; simp, (truthy_false_iff _).mp hm2⟩
      · rename_i hnomatch
        left
        intro hlen3
        obtain ⟨a, b, c, habc⟩ := List.length_eq_three.mp hlen3
        exact hnomatch a b c habc
  · intro s ms ds ys qm qd qy hsplit hqm hqd hqy hm0 hd0 hy0 hrange
    have hne : trimWs s ≠ [] := by
      intro he
      rw [he] at hsplit
      simp [jsSplit] at hsplit
    unfold parseDate
    dsimp only
    rw [if_neg hne, hsplit]
    dsimp only
    rw [hqm, hqd, hqy, show truthy (some qm) = true by simp [truthy, hm0],
      show truthy (some qd) = true by simp [truthy, hd0],
      show truthy (some qy) = true by simp [truthy, hy0]]
    show jsMakeDate qy (qsub qm 1) qd = none
    unfold jsMakeDate
    dsimp only
    rw [if_neg (by omega)]
  · intro ms ds ys m d y hm0 hmd hmv hd0 hdd hdv hy0 hyd hyv h1 h2 h3 h4 h5 h6
    have he : ms ++ str "/" ++ ds ++ str "/" ++ ys = ms ++ '/' :: (ds ++ '/' :: ys) := by
      rw [show str "/" = ['/'] from rfl]
      simp [List.append_assoc]
    rw [he]
    exact parseDate_roundTrip ms ds ys m d y hm0 hmd hmv hd0 hdd hdv hy0 hyd hyv
      h1 h2 h3 h4 h5 h6

end Finances

namespace Finances

/-- C3 witness: February 29 of the leap year 2020 round-trips, and a
date in year 300000000, whose time value exceeds the representable
range, is Invalid, both through the theorem. -/
theorem parseDate_spec_witness :
    parseDate (str "2" ++ str "/" ++ str "29" ++ str "/" ++ str "2020") =
      some ⟨2020, 1, 29⟩ ∧
    parseDate (str "1/1/300000000") = none := by
  constructor
  · exact parseDate_spec.2.2.2.2.2.2 (str "2") (str "29") (str "2020") 2 29 2020
      (by decide) (by decide) (by decide) (by decide) (by decide) (by decide)
      (by decide) (by decide) (by decide) (by decide) (by decide) (by decide)
      (by decide) (by decide) (by decide)
  · apply parseDate_spec.2.2.2.2.1 (str "1/1/300000000") (str "1") (str "1")
      (str "300000000") 1 1 300000000 (by decide) (by decide) (by decide) (by decide)
      (by norm_num) (by norm_num) (by norm_num)
    rw [show jsCivil 300000000 (qsub 1 1) 1 = ⟨300000000, 0, 1⟩ from by decide]
    have hb := (yearsDaysFwd_bounds ((300000000 - 1970 : Int).toNat)).1
    have hn : (((300000000 - 1970 : Int).toNat : Nat) : Int) = 299998030 := by decide
    rw [hn] at hb
    unfold epochDays yearsDays
    dsimp only
    rw [if_pos (by norm_num), show monthOffset 300000000 0 = 0 from rfl]
    omega

/-- C4 counterexample: the input whose cleaned string is empty is not
Invalid: a lone dollar sign parses as 0, because JavaScript converts
the empty string to the number 0. -/
theorem parseAmount_dollar_counterexample :
    parseAmount (str "$") = some 0 ∧ amountCleaned (str "$") = [] := by
  constructor
  · decide
  · decide

/-- C4 amended: parseAmount is Invalid exactly on the empty input or
when the cleaned string fails numeric conversion; a nonempty input with
an empty cleaned string is not Invalid but parses as 0, so a lone
dollar sign or a bare pair of parentheses gives 0; the documented
examples parse to -21.54, 1234.50 and -5. -/
theorem parseAmount_invalid_iff :
    parseAmount (str "") = none ∧
    (∀ v : Str, v ≠ [] → (parseAmount v = none ↔ jsNumber (amountCleaned v) = none)) ∧
    (∀ v : Str, v ≠ [] → amountCleaned v = [] → parseAmount v = some 0) ∧
    parseAmount (str "($21.54)") = some (mkRat (-2154) 100) ∧
    parseAmount (str "$1,234.50") = some (mkRat 123450 100) ∧
    parseAmount (str "-5") = some (-5) ∧
    parseAmount (str "()") = some 0 := by
  refine ⟨by decide, ?_, ?_, by decide, by decide, by decide, by decide⟩
  · intro v hv
    unfold parseAmount
    rw [if_neg hv]
    dsimp only
    cases hj : jsNumber (amountCleaned v) with
    | none => simp [hj]
    | some p => simp [hj]
  · intro v hv hc
    unfold parseAmount
    rw [if_neg hv]
    dsimp only
    rw [hc, show jsNumber ([] : Str) = some 0 from rfl]
    dsimp only
    congr 1
    by_cases hp : (hasParens v || decide ((([] : Str)).head? = some '-')) = true
    · rw [if_pos hp]
      show -jsAbs 0 = 0
      rw [jsAbs_eq]
      simp
    · rw [if_neg hp]

/-- C4 witness: the lone dollar sign instantiates the iff and the
empty-cleaned-string clause. -/
theorem parseAmount_invalid_iff_witness :
    (parseAmount (str "$") = none ↔ jsNumber (amountCleaned (str "$")) = none) ∧
    parseAmount (str "$") = some 0 :=
  ⟨parseAmount_invalid_iff.2.1 (str "$") (by decide),
   parseAmount_invalid_iff.2.2.1 (str "$") (by decide) (by decide)⟩

/-- C10 witness: the parenthesized negative input instantiates the sign
characterization. -/
theorem parseAmount_sign_spec_witness :
    ∃ p : ℚ, jsNumber (amountCleaned (str "($-5)")) = some p ∧
      (-5 : ℚ) = (if (hasParens (str "($-5)") ||
          (amountCleaned (str "($-5)")).head? = some '-') = true then -|p| else p) ∧
      ((-5 : ℚ) < 0 ↔ ((hasParens (str "($-5)") ||
          (amountCleaned (str "($-5)")).head? = some '-') = true ∧ p ≠ 0)) :=
  parseAmount_sign_spec.1 (str "($-5)") (-5) (by decide)

end Finances

namespace Finances

theorem mem_stateCodes_no_digit {t : Str} (ht : t ∈ stateCodes) :
    t.any Char.isDigit = false := by
  have hall : stateCodes.all (fun t => !t.any Char.isDigit) = true := by decide
  have h2 := List.all_eq_true.mp hall t ht
  simpa using h2

theorem dropLoc_no_state {ts : List Str} (h : ∀ x, ts.getLast? = some x → x ∉ stateCodes) :
    dropLoc ts = ts := by
  unfold dropLoc
  cases hl : ts.getLast? with
  | none => simp only
  | some lastTok =>
    simp only
    rw [if_neg (h lastTok hl)]

theorem dropLoc_digit_last {ts : List Str} {dTok : Str} (hd : dTok.any Char.isDigit = true) :
    dropLoc (ts ++ [dTok]) = ts ++ [dTok] := by
  unfold dropLoc
  rw [List.getLast?_concat]
  simp only
  rw [if_neg (fun hmem => by
    rw [mem_stateCodes_no_digit hmem] at hd
    exact Bool.noConfusion hd)]

theorem dropLoc_city_state {ts : List Str} {c st : Str} (hst : st ∈ stateCodes)
    (hc0 : c ≠ []) (hca : c.all isLowerAlpha = true) (hc3 : 3 ≤ c.length) :
    dropLoc (ts ++ [c, st]) = ts := by
  unfold dropLoc
  rw [show ts ++ [c, st] = (ts ++ [c]) ++ [st] by simp]
  rw [List.getLast?_concat]
  simp only
  rw [if_pos hst, List.dropLast_concat, List.getLast?_concat]
  simp only
  rw [if_pos (by simp [List.isEmpty_eq_false, hc0, hca, hc3]), List.dropLast_concat]

theorem dropLoc_digit_city_state {ts : List Str} {dTok c st : Str} (hst : st ∈ stateCodes)
    (hc0 : c ≠ []) (hca : c.all isLowerAlpha = true) (hc3 : 3 ≤ c.length) :
    dropLoc (ts ++ [dTok, c, st]) = ts ++ [dTok] := by
  rw [show ts ++ [dTok, c, st] = (ts ++ [dTok]) ++ [c, st] by simp]
  exact dropLoc_city_state hst hc0 hca hc3

theorem foldl_dedupPush_digit (acc : List Str) {dTok : Str}
    (hd : dTok.any Char.isDigit = true) (ts : List Str) :
    (ts ++ [dTok]).foldl dedupPush acc = ts.foldl dedupPush acc := by
  rw [List.foldl_append, List.foldl_cons, List.foldl_nil]
  unfold dedupPush keepToken
  rw [hd]
  simp

theorem tokenSig_eq_aux {ts2 ts : List Str} (hne : ts2 ≠ [])
    (hfold : (dropLoc ts2).foldl dedupPush [] = (dropLoc ts).foldl dedupPush [])
    (hts : ts = [] → (dropLoc ts2).foldl dedupPush [] = []) :
    tokenSig ts2 = tokenSig ts := by
  unfold tokenSig
  rw [if_neg (by simp [hne])]
  by_cases h : ts = []
  · rw [if_pos (by simp [h]), hts h]
    rfl
  · rw [if_neg (by simp [h]), hfold]

end Finances

namespace Finances

theorem lookupGroup_addGroup_self (k desc : Str) :
    ∀ gs : List MerchantGroup, lookupGroup k (addGroup k desc gs) =
      (match lookupGroup k gs with
       | none => some ⟨k, 1, desc⟩
       | some g => some ⟨g.key, g.count + 1, g.sample⟩)
  | [] => by simp [addGroup, lookupGroup]
  | g :: gs => by
    by_cases h : g.key = k
    · simp only [addGroup, if_pos h, lookupGroup]
    · simp only [addGroup, if_neg h, lookupGroup, if_neg h]
      exact lookupGroup_addGroup_self k desc gs

theorem lookupGroup_addGroup_other {k k2 desc : Str} (h : k2 ≠ k) :
    ∀ gs : List MerchantGroup, lookupGroup k2 (addGroup k desc gs) = lookupGroup k2 gs
  | [] => by
    simp only [addGroup, lookupGroup]
    rw [if_neg (fun he => h he.symm)]
  | g :: gs => by
    by_cases hg : g.key = k
    · simp only [addGroup, if_pos hg, lookupGroup]
      rw [if_neg (fun he => h (by rw [← he]; exact hg)),
        if_neg (fun he => h (by rw [← he]; exact hg))]
    · simp only [addGroup, if_neg hg, lookupGroup]
      by_cases hg2 : g.key = k2
      · rw [if_pos hg2, if_pos hg2]
      · rw [if_neg hg2, if_neg hg2]
        exact lookupGroup_addGroup_other h gs

theorem lookupGroup_buildGroups_go {k : Str} (hk : k ≠ []) :
    ∀ (txs : List Transaction) (gs : List MerchantGroup),
      lookupGroup k (txs.foldl (fun gs tx =>
        if tx.category ≠ str "Uncategorized" then gs
        else
          let k2 := toMerchantKeyword tx.description
          if k2.isEmpty then gs else addGroup k2 tx.description gs) gs) =
      (match lookupGroup k gs, matchingTxs txs k with
       | none, [] => none
       | none, t :: _ => some ⟨k, (matchingTxs txs k).length, t.description⟩
       | some g, l => some ⟨g.key, g.count + l.length, g.sample⟩)
  | [], gs => by
    cases hg : lookupGroup k gs with
    | none => simp [matchingTxs, hg]
    | some g => simp [matchingTxs, hg]
  | tx :: rest, gs => by
    have hstep : matchingTxs (tx :: rest) k =
        (if (tx.category = str "Uncategorized" && toMerchantKeyword tx.description = k) = true
         then tx :: matchingTxs rest k else matchingTxs rest k) := by
      unfold matchingTxs
      rw [List.filter_cons]
    rw [List.foldl_cons]
    by_cases hcat : tx.category = str "Uncategorized"
    · rw [if_neg (by simpa using hcat)]
      by_cases hsig : (toMerchantKeyword tx.description).isEmpty = true
      · have hsk : toMerchantKeyword tx.description ≠ k := by
          rw [List.isEmpty_iff] at hsig
          rw [hsig]
          exact fun he => hk he.symm
        rw [if_pos hsig, lookupGroup_buildGroups_go hk rest gs, hstep,
          if_neg (by simp [hsk])]
      · by_cases hks : toMerchantKeyword tx.description = k
        · rw [if_neg hsig, lookupGroup_buildGroups_go hk rest (addGroup _ tx.description gs),
            hstep, if_pos (by simp [hcat, hks]), hks, lookupGroup_addGroup_self]
          cases hg : lookupGroup k gs with
          | none =>
            simp only [List.length_cons]
            rw [Nat.add_comm]
          | some g =>
            simp only [List.length_cons, Option.some.injEq, MerchantGroup.mk.injEq]
            exact ⟨trivial, by omega, trivial⟩
        · rw [if_neg hsig, lookupGroup_buildGroups_go hk rest (addGroup _ tx.description gs),
            hstep, if_neg (by simp [hks]), lookupGroup_addGroup_other (fun he => hks he.symm)]
    · rw [if_pos (by simpa using hcat), lookupGroup_buildGroups_go hk rest gs, hstep,
        if_neg (by simp [hcat])]

end Finances

namespace Finances

theorem mem_insertDesc {x z : MerchantGroup} :
    ∀ {l : List MerchantGroup}, z ∈ insertDesc x l → z = x ∨ z ∈ l
  | [], h => by
    simp [insertDesc] at h
    exact Or.inl h
  | y :: ys, h => by
    unfold insertDesc at h
    split at h
    · rcases List.mem_cons.mp h with rfl | h2
      · exact Or.inl rfl
      · exact Or.inr h2
    · rcases List.mem_cons.mp h with rfl | h2
      · exact Or.inr (List.mem_cons_self _ _)
      · rcases mem_insertDesc h2 with h3 | h3
        · exact Or.inl h3
        · exact Or.inr (List.mem_cons_of_mem _ h3)

theorem pairwise_insertDesc {x : MerchantGroup} :
    ∀ {l : List MerchantGroup},
      l.Pairwise (fun a b => b.count ≤ a.count) →
      (insertDesc x l).Pairwise (fun a b => b.count ≤ a.count)
  | [], _ => by simp [insertDesc]
  | y :: ys, h => by
    rw [List.pairwise_cons] at h
    unfold insertDesc
    split
    · rename_i hyx
      rw [List.pairwise_cons]
      refine ⟨?_, ?_⟩
      · intro z hz
        rcases List.mem_cons.mp hz with rfl | h2
        · omega
        · have h3 := h.1 z h2
          omega
      · rw [List.pairwise_cons]
        exact h
    · rename_i hyx
      rw [List.pairwise_cons]
      refine ⟨?_, pairwise_insertDesc h.2⟩
      intro z hz
      rcases mem_insertDesc hz with rfl | h2
      · omega
      · exact h.1 z h2

theorem sortByCountDesc_pairwise :
    ∀ l : List MerchantGroup,
      (sortByCountDesc l).Pairwise (fun a b => b.count ≤ a.count)
  | [] => by simp [sortByCountDesc]
  | x :: xs => by
    unfold sortByCountDesc
    exact pairwise_insertDesc (sortByCountDesc_pairwise xs)

theorem filter_insertDesc (x : MerchantGroup) (n : Nat) :
    ∀ l : List MerchantGroup,
      (insertDesc x l).filter (fun g => decide (g.count = n)) =
        (if x.count = n then x :: l.filter (fun g => decide (g.count = n))
         else l.filter (fun g => decide (g.count = n)))
  | [] => by
    simp only [insertDesc, List.filter_cons, List.filter_nil]
    by_cases h : x.count = n
    · rw [if_pos (by simp [h]), if_pos h]
    · rw [if_neg (by simp [h]), if_neg h]
  | y :: ys => by
    unfold insertDesc
    split
    · rw [List.filter_cons]
      by_cases hx : x.count = n
      · rw [if_pos (by simp [hx]), if_pos hx]
      · rw [if_neg (by simp [hx]), if_neg hx]
    · rename_i hyx
      rw [List.filter_cons, filter_insertDesc x n ys]
      by_cases hy : y.count = n
      · by_cases hx : x.count = n
        · omega
        · rw [if_pos (by simp [hy]), if_neg hx, if_neg hx, List.filter_cons,
            if_pos (by simp [hy])]
      · by_cases hx : x.count = n
        · rw [if_neg (by simp [hy]), if_pos hx, if_pos hx, List.filter_cons,
            if_neg (by simp [hy])]
        · rw [if_neg (by simp [hy]), if_neg hx, if_neg hx, List.filter_cons,
            if_neg (by simp [hy])]

theorem filter_sortByCountDesc (n : Nat) :
    ∀ l : List MerchantGroup,
      (sortByCountDesc l).filter (fun g => decide (g.count = n)) =
        l.filter (fun g => decide (g.count = n))
  | [] => rfl
  | x :: xs => by
    unfold sortByCountDesc
    rw [filter_insertDesc, filter_sortByCountDesc n xs, List.filter_cons]
    by_cases hx : x.count = n
    · rw [if_pos hx, if_pos (by simp [hx])]
    · rw [if_neg hx, if_neg (by simp [hx])]

end Finances

namespace Finances

theorem uncategorizedMerchants_empty_query (txs : List Transaction) :
    uncategorizedMerchants txs (str "") = sortByCountDesc (buildGroups txs) := by
  unfold uncategorizedMerchants
  dsimp only
  rw [if_pos (by decide)]

/-- C6 counterexample: the descriptions STORE SEATTLE and STORE SEATTLE
WA differ only by the trailing state code, yet their signatures differ
(store seattle versus store, because the state drop also removes the
preceding city-like token), so the two Uncategorized transactions are
reported as two separate groups rather than one. -/
theorem merchant_trailing_state_counterexample :
    toMerchantKeyword (str "STORE SEATTLE") = str "store seattle" ∧
    toMerchantKeyword (str "STORE SEATTLE WA") = str "store" ∧
    (uncategorizedMerchants
      [{ id := str "1", importId := [], date := ⟨2021, 0, 1⟩,
         description := str "STORE SEATTLE", amount := (-1 : ℚ),
         category := str "Uncategorized", manual := false, rawType := [], location := [] },
       { id := str "2", importId := [], date := ⟨2021, 0, 2⟩,
         description := str "STORE SEATTLE WA", amount := (-2 : ℚ),
         category := str "Uncategorized", manual := false, rawType := [], location := [] }]
      (str "")).length = 2 := by
  refine ⟨by decide, by decide, by decide⟩

/-- C6 amended: the extractor maps AMAZON.COM*1A2B3C SEATTLE WA to the
signature amazon com; at the token level, appending a digit-bearing
token and/or a city-and-state suffix to a token list that does not
itself end in a state code leaves the signature unchanged, so two
Uncategorized descriptions of that shape share one group whose count is
the number of matching transactions and whose sample is the first
encountered description; the reported groups are sorted by descending
count, and within any count the first-encountered order of the group
map is preserved. (Appending a bare trailing state code can change the
signature, because the state drop also removes a preceding city-like
token.) -/
theorem merchant_clustering_spec :
    toMerchantKeyword (str "AMAZON.COM*1A2B3C SEATTLE WA") = str "amazon com" ∧
    (∀ (ts : List Str) (dTok c st : Str),
      st ∈ stateCodes → c ≠ [] → c.all isLowerAlpha = true → 3 ≤ c.length →
      dTok.any Char.isDigit = true →
      (∀ x, ts.getLast? = some x → x ∉ stateCodes) →
      tokenSig (ts ++ [dTok, c, st]) = tokenSig ts ∧
      tokenSig (ts ++ [c, st]) = tokenSig ts ∧
      tokenSig (ts ++ [dTok]) = tokenSig ts) ∧
    (∀ (txs : List Transaction) (k : Str), k ≠ [] →
      lookupGroup k (buildGroups txs) =
        (match matchingTxs txs k with
         | [] => none
         | t :: _ => some ⟨k, (matchingTxs txs k).length, t.description⟩)) ∧
    (∀ txs : List Transaction,
      (uncategorizedMerchants txs (str "")).Pairwise (fun a b => b.count ≤ a.count)) ∧
    (∀ (txs : List Transaction) (n : Nat),
      (uncategorizedMerchants txs (str "")).filter (fun g => decide (g.count = n)) =
        (buildGroups txs).filter (fun g => decide (g.count = n))) := by
  refine ⟨by decide, ?_, ?_, ?_, ?_⟩
  · intro ts dTok c st hst hc0 hca hc3 hd hns
    refine ⟨?_, ?_, ?_⟩
    · refine tokenSig_eq_aux (by simp) ?_ ?_
      · rw [dropLoc_digit_city_state hst hc0 hca hc3, dropLoc_no_state hns,
          foldl_dedupPush_digit [] hd ts]
      · intro h
        subst h
        rw [dropLoc_digit_city_state hst hc0 hca hc3, foldl_dedupPush_digit [] hd []]
        rfl
    · refine tokenSig_eq_aux (by simp) ?_ ?_
      · rw [dropLoc_city_state hst hc0 hca hc3, dropLoc_no_state hns]
      · intro h
        subst h
        rw [dropLoc_city_state hst hc0 hca hc3]
        rfl
    · refine tokenSig_eq_aux (by simp) ?_ ?_
      · rw [dropLoc_digit_last hd, dropLoc_no_state hns, foldl_dedupPush_digit [] hd ts]
      · intro h
        subst h
        rw [dropLoc_digit_last hd, foldl_dedupPush_digit [] hd []]
        rfl
  · intro txs k hk
    have h := lookupGroup_buildGroups_go hk txs []
    rw [show lookupGroup k ([] : List MerchantGroup) = none from rfl] at h
    unfold buildGroups
    rw [h]
    cases matchingTxs txs k with
    | nil => rfl
    | cons t l => rfl
  · intro txs
    rw [uncategorizedMerchants_empty_query]
    exact sortByCountDesc_pairwise _
  · intro txs n
    rw [uncategorizedMerchants_empty_query]
    exact filter_sortByCountDesc n _

end Finances

namespace Finances

/-- A sample Uncategorized Amazon transaction. -/
def amazonTx1 : Transaction :=
  { id := str "a1", importId := [], date := ⟨2021, 0, 1⟩,
    description := str "AMAZON.COM*1A2B3C SEATTLE WA", amount := (-10 : ℚ),
    category := str "Uncategorized", manual := false, rawType := [], location := [] }

/-- A second Amazon transaction differing only in the trailing noise
token and the city-state pair. -/
def amazonTx2 : Transaction :=
  { id := str "a2", importId := [], date := ⟨2021, 0, 2⟩,
    description := str "AMAZON.COM*9Z8Y SPOKANE WA", amount := (-20 : ℚ),
    category := str "Uncategorized", manual := false, rawType := [], location := [] }

/-- C6 witness: the token-level invariance instantiated at the Amazon
token list, and the two Amazon transactions collected into a single
group of count 2 with the first description as sample, through the
theorem. -/
theorem merchant_clustering_spec_witness :
    tokenSig ([str "amazon", str "com"] ++ [str "1a2b3c", str "seattle", str "wa"]) =
      tokenSig [str "amazon", str "com"] ∧
    lookupGroup (str "amazon com") (buildGroups [amazonTx1, amazonTx2]) =
      some ⟨str "amazon com", 2, str "AMAZON.COM*1A2B3C SEATTLE WA"⟩ := by
  constructor
  · exact (merchant_clustering_spec.2.1 [str "amazon", str "com"] (str "1a2b3c")
      (str "seattle") (str "wa") (by decide) (by decide) (by decide) (by decide)
      (by decide) (by decide)).1
  · have h := merchant_clustering_spec.2.2.1 [amazonTx1, amazonTx2] (str "amazon com")
      (by decide)
    rw [h]
    decide

end Finances
